import Mathlib

/-!
Verification development for the `lfp_build` workspace-management package.

The definitions below are a shallow embedding of the Python source:

* `TomlValue` models the tomlkit document values handled by
  `lfp_build.pyproject` (string keys, scalar / array / table values);
  a document is a `List (String × TomlValue)` (an insertion-ordered table).
* `_prune`, `PyProject.table`, `persist` follow `src/lfp_build/pyproject.py`.
* `filter_members` follows `PyProjectTree.filter_members`.
* `create` follows `src/lfp_build/workspace_create.py`, with `PurePath` a
  lexical model of `pathlib` pure paths.
* `process_cleanup` follows the `finally` block of `util.process_start`.
External collaborators (the TOML serializer `tomlkit.dumps`, the external
formatter, the MD5 digest) are parameters of the corresponding functions.
-/

namespace LfpBuild

/-- A tomlkit document value: scalars, arrays, and (ordered) tables. -/
inductive TomlValue where
  | str (s : String)
  | int (n : Int)
  | bool (b : Bool)
  | array (items : List TomlValue)
  | table (items : List (String × TomlValue))
deriving Repr

/-- `Mapping.get(key, None)` on an ordered table (first matching key). -/
def getKey : List (String × TomlValue) → String → Option TomlValue
  | [], _ => none
  | (k, v) :: rest, key => if k = key then some v else getKey rest key

/-- `key in mapping`. -/
def containsKey (items : List (String × TomlValue)) (key : String) : Bool :=
  (getKey items key).isSome

/-- `mapping.remove(key)` / `del mapping[key]`. -/
def removeKey : List (String × TomlValue) → String → List (String × TomlValue)
  | [], _ => []
  | (k, v) :: rest, key =>
      if k = key then removeKey rest key else (k, v) :: removeKey rest key

/-- In-place update of the value stored at `key` (tomlkit assignment on an
existing key); appends when the key is absent. -/
def setKey : List (String × TomlValue) → String → TomlValue → List (String × TomlValue)
  | [], key, v => [(key, v)]
  | (k, w) :: rest, key, v =>
      if k = key then (k, v) :: rest else (k, w) :: setKey rest key v

/-- `pyproject._prune._is_empty`: a length-zero collection or mapping;
strings are explicitly excluded, scalars are never empty. -/
def _is_empty : TomlValue → Bool
  | .array items => items.isEmpty
  | .table items => items.isEmpty
  | _ => false

mutual

/-- `pyproject._prune`: recursively remove empty tables and arrays.  The
Python mutates children first and then deletes a child that ended up empty;
functionally this is prune-children-then-filter. -/
def _prune : TomlValue → TomlValue
  | .table items => .table (_pruneTable items)
  | .array items => .array (_pruneArray items)
  | v => v

/-- The `Mapping` branch of `_prune` (iterate keys, prune, delete empties). -/
def _pruneTable : List (String × TomlValue) → List (String × TomlValue)
  | [] => []
  | (k, v) :: rest =>
      let v2 := _prune v
      if _is_empty v2 then _pruneTable rest else (k, v2) :: _pruneTable rest

/-- The sequence branch of `_prune` (reverse iteration, prune, delete empties). -/
def _pruneArray : List TomlValue → List TomlValue
  | [] => []
  | v :: rest =>
      let v2 := _prune v
      if _is_empty v2 then _pruneArray rest else v2 :: _pruneArray rest

end

mutual

/-- No child anywhere inside the value is an empty table or array. -/
def noEmptyChildren : TomlValue → Bool
  | .table items => noEmptyChildrenTable items
  | .array items => noEmptyChildrenArray items
  | _ => true

def noEmptyChildrenTable : List (String × TomlValue) → Bool
  | [] => true
  | (_, v) :: rest => (!_is_empty v && noEmptyChildren v) && noEmptyChildrenTable rest

def noEmptyChildrenArray : List TomlValue → Bool
  | [] => true
  | v :: rest => (!_is_empty v && noEmptyChildren v) && noEmptyChildrenArray rest

end

/-- `PyProject.table(*keys, create=...)`, acting on the document's top-level
table.  Returns the table reached at the end of the walk (if any) together
with the document after the walk's mutations.  Mutation through tomlkit's
aliasing is modelled by writing the recursive result back along the path;
in the branch where an existing non-table value is encountered with
`create=True`, the source calls `cur_table.remove(key)` but the freshly
created table is only `add`ed in the `else` branch, so the walk continues on
a table that is no longer attached to the document — the recursive result is
dropped there, exactly as the mutations of the detached `tomlkit.table` are. -/
def PyProject.table :
    List (String × TomlValue) → List String → Bool →
      Option (List (String × TomlValue)) × List (String × TomlValue)
  | cur, [], _ => (some cur, cur)
  | cur, key :: rest, create =>
      match getKey cur key with
      | some (.table sub) =>
          let r := PyProject.table sub rest create
          (r.1, setKey cur key (.table r.2))
      | _ =>
          if create then
            if containsKey cur key then
              let r := PyProject.table [] rest create
              (r.1, removeKey cur key)
            else
              let r := PyProject.table [] rest create
              (r.1, cur ++ [(key, .table r.2)])
          else (none, cur)

mutual

theorem noEmptyChildren_prune : ∀ v : TomlValue, noEmptyChildren (_prune v) = true
  | .str _ => rfl
  | .int _ => rfl
  | .bool _ => rfl
  | .table items => by
      have h := noEmptyChildrenTable_pruneTable items
      simpa [_prune, noEmptyChildren] using h
  | .array items => by
      have h := noEmptyChildrenArray_pruneArray items
      simpa [_prune, noEmptyChildren] using h

theorem noEmptyChildrenTable_pruneTable :
    ∀ items : List (String × TomlValue), noEmptyChildrenTable (_pruneTable items) = true
  | [] => rfl
  | (k, v) :: rest => by
      have h1 := noEmptyChildren_prune v
      have h2 := noEmptyChildrenTable_pruneTable rest
      by_cases he : _is_empty (_prune v) = true
      · simp [_pruneTable, he, h2]
      · simp [_pruneTable, he, noEmptyChildrenTable, h1, h2,
          Bool.not_eq_true _ ▸ he]

theorem noEmptyChildrenArray_pruneArray :
    ∀ items : List TomlValue, noEmptyChildrenArray (_pruneArray items) = true
  | [] => rfl
  | v :: rest => by
      have h1 := noEmptyChildren_prune v
      have h2 := noEmptyChildrenArray_pruneArray rest
      by_cases he : _is_empty (_prune v) = true
      · simp [_pruneArray, he, h2]
      · simp [_pruneArray, he, noEmptyChildrenArray, h1, h2]

end

theorem mem_pruneTable {items : List (String × TomlValue)} {k : String} {w : TomlValue}
    (hmem : (k, w) ∈ items) (hne : _is_empty (_prune w) = false) :
    (k, _prune w) ∈ _pruneTable items := by
  induction items with
  | nil => cases hmem
  | cons hd tl ih =>
    obtain ⟨k', v'⟩ := hd
    rcases List.mem_cons.mp hmem with heq | htl
    · cases heq
      simp [_pruneTable, hne]
    · by_cases he : _is_empty (_prune v') = true
      · simpa [_pruneTable, he] using ih htl
      · have hrw : _pruneTable ((k', v') :: tl) = (k', _prune v') :: _pruneTable tl := by
          simp [_pruneTable, he]
        rw [hrw]
        exact List.mem_cons_of_mem _ (ih htl)

theorem mem_pruneArray {items : List TomlValue} {w : TomlValue}
    (hmem : w ∈ items) (hne : _is_empty (_prune w) = false) :
    _prune w ∈ _pruneArray items := by
  induction items with
  | nil => cases hmem
  | cons hd tl ih =>
    rcases List.mem_cons.mp hmem with heq | htl
    · cases heq
      simp [_pruneArray, hne]
    · by_cases he : _is_empty (_prune hd) = true
      · simpa [_pruneArray, he] using ih htl
      · have hrw : _pruneArray (hd :: tl) = _prune hd :: _pruneArray tl := by
          simp [_pruneArray, he]
        rw [hrw]
        exact List.mem_cons_of_mem _ (ih htl)

/-- C1: on the document `{a = 1}`, `table("a", create=True)` takes the
non-table branch for `"a"`: since `"a" in cur_table`, the source only calls
`cur_table.remove("a")` and never adds the fresh table, so afterwards the
document is empty — key `"a"` is gone and the returned empty table is not
reachable from the document — contradicting the claim that the value is
replaced by a new empty table attached at that key.  The `create=False` half
of the claim does hold: the walk returns `none` and leaves the document
unchanged. -/
theorem table_create_removes_without_attach :
    PyProject.table [("a", TomlValue.int 1)] ["a"] true = (some [], []) ∧
    containsKey (PyProject.table [("a", TomlValue.int 1)] ["a"] true).2 "a" = false ∧
    PyProject.table [("a", TomlValue.int 1)] ["a"] false =
      (none, [("a", TomlValue.int 1)]) :=
  ⟨rfl, rfl, rfl⟩

/-- C7: pruning a document value (1) leaves no empty table or array anywhere
in the result — so empty containers at every depth, including ancestors that
became empty only because their children were pruned, are removed; (2) keeps
every table entry and array element that is non-empty after its own pruning
(non-empty containers are never removed); and (3) leaves scalars — including
the falsy `0`, `false`, and `""` — unchanged, and never classifies them as
empty. -/
theorem prune_correct :
    (∀ v : TomlValue, noEmptyChildren (_prune v) = true) ∧
    (∀ (items : List (String × TomlValue)) (k : String) (w : TomlValue),
        (k, w) ∈ items → _is_empty (_prune w) = false →
        (k, _prune w) ∈ _pruneTable items) ∧
    (∀ (items : List TomlValue) (w : TomlValue),
        w ∈ items → _is_empty (_prune w) = false → _prune w ∈ _pruneArray items) ∧
    (∀ s, _prune (.str s) = .str s) ∧
    (∀ n, _prune (.int n) = .int n) ∧
    (∀ b, _prune (.bool b) = .bool b) ∧
    _is_empty (.int 0) = false ∧ _is_empty (.bool false) = false ∧
    _is_empty (.str "") = false :=
  ⟨noEmptyChildren_prune,
   fun _ _ _ hmem hne => mem_pruneTable hmem hne,
   fun _ _ hmem hne => mem_pruneArray hmem hne,
   fun _ => rfl, fun _ => rfl, fun _ => rfl, rfl, rfl, rfl⟩

/-- Witness for the C7 theorem at a concrete document: a table whose nested
table becomes empty after pruning is removed, while the scalar `0` entry is
kept. -/
theorem prune_correct_witness :
    noEmptyChildren
      (_prune (.table [("a", .table [("b", .array [])]), ("c", .int 0)])) = true ∧
    ("c", _prune (.int 0)) ∈ _pruneTable [("a", .table [("b", .array [])]), ("c", .int 0)] :=
  ⟨prune_correct.1 _,
   prune_correct.2.1 [("a", .table [("b", .array [])]), ("c", .int 0)] "c" (.int 0)
     (by simp) rfl⟩

/-- Python `str.strip()`: drop leading and trailing whitespace. -/
def pyStrip (s : String) : String :=
  ⟨((s.data.dropWhile Char.isWhitespace).reverse.dropWhile Char.isWhitespace).reverse⟩

/-- The manifest file on disk: its bytes and its modification time. -/
structure FsFile where
  content : String
  mtime : Nat
deriving Repr, DecidableEq

/-- The error `persist` can raise: `open(path, "rb")` inside `_hash` on a
path with no file behind it (`FileNotFoundError`). -/
inductive PersistError where
  | fileNotFound
deriving Repr, DecidableEq

/-- A `PyProject` as `persist` sees it: the file behind `self.path` (absent
for a new file) and the lazily loaded `self._data`. -/
structure ManifestState where
  file : Option FsFile
  _data : Option (List (String × TomlValue))

/-- `PyProject.persist(force_format=...)` from `pyproject.py` lines 60-102.
`dumps` stands for `tomlkit.dumps`, `format` for the external formatter run
on the temporary file, `hash` for the MD5 digest, and `tempMtime` for the
timestamp the temporary file carries when it is renamed over the original.
Returns the state after the call together with the returned value (the
previous content's hash, or `None`).  The early return on
`data is None and not force_format` happens before `_hash(self.path)`;
otherwise `_hash` opens the file and raises when it is absent, before the
temporary file or the `try`/`finally` exist. -/
def persist (dumps : List (String × TomlValue) → String) (format : String → String)
    (hash : String → String) (tempMtime : Nat)
    (st : ManifestState) (force_format : Bool) :
    Except PersistError (ManifestState × Option String) :=
  match st._data, st.file with
  | none, _ =>
      if !force_format then .ok (st, none)
      else
        match st.file with
        | none => .error .fileNotFound
        | some f =>
            let formatted := format f.content
            if hash f.content ≠ hash formatted then
              .ok ({ file := some ⟨formatted, tempMtime⟩, _data := none },
                   some (hash f.content))
            else
              .ok ({ file := some f, _data := none }, none)
  | some _, none => .error .fileNotFound
  | some d, some f =>
      let data_text := pyStrip (dumps (_pruneTable d)) ++ "\n"
      let formatted := format data_text
      if hash f.content ≠ hash formatted then
        .ok ({ file := some ⟨formatted, tempMtime⟩, _data := none },
             some (hash f.content))
      else
        .ok ({ file := some f, _data := none }, none)

/-- C2: with a loaded document and an existing file, `persist()` returns the
previous content's hash exactly when the formatted serialization differs
from the file's bytes; on a byte-identical result it returns `None` and the
file — content and mtime — is the one that was there before; on a differing
result the file's bytes afterwards are the new formatted content.  The MD5
digest is abstracted as an injective `hash`. -/
theorem persist_change_detection
    (dumps : List (String × TomlValue) → String) (format : String → String)
    (hash : String → String) (hinj : Function.Injective hash)
    (tempMtime : Nat) (f : FsFile) (d : List (String × TomlValue)) (ff : Bool) :
    (format (pyStrip (dumps (_pruneTable d)) ++ "\n") = f.content →
      persist dumps format hash tempMtime ⟨some f, some d⟩ ff =
        .ok (⟨some f, none⟩, none)) ∧
    (format (pyStrip (dumps (_pruneTable d)) ++ "\n") ≠ f.content →
      persist dumps format hash tempMtime ⟨some f, some d⟩ ff =
        .ok (⟨some ⟨format (pyStrip (dumps (_pruneTable d)) ++ "\n"), tempMtime⟩, none⟩,
             some (hash f.content))) := by
  constructor
  · intro heq
    simp [persist, heq]
  · intro hne
    have hh : hash f.content ≠ hash (format (pyStrip (dumps (_pruneTable d)) ++ "\n")) :=
      fun h => hne (hinj h.symm)
    simp [persist, hh]

/-- Witness for C2 with `dumps`, `format`, `hash` all concrete (`hash = id`
is injective): an unchanged file is returned untouched, and a changed one is
replaced by the formatted bytes with the old content returned as the hash. -/
theorem persist_change_detection_witness :
    persist (fun _ => "x") id id 7 ⟨some ⟨"x\n", 3⟩, some [("a", .int 1)]⟩ false =
      .ok (⟨some ⟨"x\n", 3⟩, none⟩, none) ∧
    persist (fun _ => "y") id id 7 ⟨some ⟨"x\n", 3⟩, some [("a", .int 1)]⟩ false =
      .ok (⟨some ⟨"y\n", 7⟩, none⟩, some "x\n") :=
  ⟨(persist_change_detection (fun _ => "x") id id (fun _ _ h => h) 7 ⟨"x\n", 3⟩
      [("a", .int 1)] false).1 rfl,
   (persist_change_detection (fun _ => "y") id id (fun _ _ h => h) 7 ⟨"x\n", 3⟩
      [("a", .int 1)] false).2 (by decide)⟩

/-- C5 counterexample: with a loaded document and no file on disk,
`persist()` does not treat the original as absent and write the new
content — `_hash(self.path)` opens the missing file and the call fails with
`FileNotFoundError`. -/
theorem persist_absent_file_raises :
    persist (fun _ => "doc") id id 0
      ⟨none, some [("project", .table [("name", .str "x")])]⟩ false =
      .error .fileNotFound := rfl

/-- C5 amended: whenever the manifest's file is absent and a document is
loaded (so the early `data is None and not force_format` return does not
apply), `persist` raises the file-not-found error from `_hash` before
writing anything, for every serializer, formatter, digest and flag. -/
theorem persist_absent_file_always_raises
    (dumps : List (String × TomlValue) → String) (format : String → String)
    (hash : String → String) (tempMtime : Nat)
    (d : List (String × TomlValue)) (ff : Bool) :
    persist dumps format hash tempMtime ⟨none, some d⟩ ff = .error .fileNotFound := rfl

/-- The error raised by `PyProjectTree.filter_members` when a required
member is missing (spec taxonomy: `MemberNotFoundError`; the source raises
`ValueError("Member %s not found" % name)`). -/
inductive FilterError where
  | memberNotFound (name : String)
deriving Repr, DecidableEq

/-- `PyProjectTree` with member projects identified by an opaque token:
`name`, `root`, the `filtered` flag and the insertion-ordered `members`
mapping. -/
structure PyProjectTree where
  name : String
  root : Nat
  filtered : Bool
  members : List (String × Nat)
deriving Repr, DecidableEq

/-- First value bound to `key`, `dict.get(name, None)`. -/
def dictGet : List (String × Nat) → String → Option Nat
  | [], _ => none
  | (k, v) :: rest, key => if k = key then some v else dictGet rest key

/-- The body of the loop in `filter_members`: iterate over
`[*names, *self.members.keys()]` building `members_copy`, raising when a
required requested name has no member. -/
def filterLoop (members : List (String × Nat)) (names : List String)
    (required : Bool) :
    List String → List (String × Nat) → Except FilterError (List (String × Nat))
  | [], acc => .ok acc
  | n :: rest, acc =>
      if (dictGet acc n).isSome then filterLoop members names required rest acc
      else
        match dictGet members n with
        | none =>
            if required && names.contains n then .error (.memberNotFound n)
            else filterLoop members names required rest acc
        | some p =>
            if names.contains n then filterLoop members names required rest (acc ++ [(n, p)])
            else filterLoop members names required rest acc

/-- `PyProjectTree.filter_members(names, required)`: `names=None` and
`names=[]` are both falsy, returning `self`; otherwise the loop builds the
filtered copy, which shares `name` and `root` and is marked `filtered`. -/
def filter_members (t : PyProjectTree) (names : Option (List String))
    (required : Bool) : Except FilterError PyProjectTree :=
  match names with
  | none => .ok t
  | some ns =>
      if ns.isEmpty then .ok t
      else
        match filterLoop t.members ns required (ns ++ t.members.map Prod.fst) [] with
        | .error e => .error e
        | .ok acc =>
            .ok { name := t.name, root := t.root, filtered := true, members := acc }

/-- C10: filtering with `names=None` or `names=[]` returns the very tree it
was called on — members, `filtered` flag and all — whatever `required` is. -/
theorem filter_members_empty_names (t : PyProjectTree) (required : Bool) :
    filter_members t none required = .ok t ∧
    filter_members t (some []) required = .ok t :=
  ⟨rfl, rfl⟩

theorem dictGet_mem {l : List (String × Nat)} {k : String} {v : Nat}
    (h : dictGet l k = some v) : (k, v) ∈ l := by
  induction l with
  | nil => simp [dictGet] at h
  | cons hd tl ih =>
    obtain ⟨k', v'⟩ := hd
    by_cases hk : k' = k
    · subst hk
      simp [dictGet] at h
      simp [h]
    · simp [dictGet, hk] at h
      exact List.mem_cons_of_mem _ (ih h)

theorem dictGet_append (a b : List (String × Nat)) (k : String) :
    dictGet (a ++ b) k =
      if (dictGet a k).isSome then dictGet a k else dictGet b k := by
  induction a with
  | nil => simp [dictGet]
  | cons hd tl ih =>
    obtain ⟨k', v'⟩ := hd
    by_cases hk : k' = k
    · subst hk
      simp [dictGet]
    · simpa [dictGet, hk] using ih

theorem filterLoop_missing_required (members : List (String × Nat))
    (names : List String) :
    ∀ (todo : List String) (acc : List (String × Nat)),
      (∀ p ∈ acc, dictGet members p.1 = some p.2) →
      (∃ n ∈ todo, n ∈ names ∧ dictGet members n = none) →
      ∃ m, m ∈ names ∧ dictGet members m = none ∧
        filterLoop members names true todo acc = .error (.memberNotFound m)
  | [], _, _, hmiss => by simp at hmiss
  | n :: rest, acc, hacc, hmiss => by
      by_cases h1 : (dictGet acc n).isSome
      · have hrest : ∃ m ∈ rest, m ∈ names ∧ dictGet members m = none := by
          rcases hmiss with ⟨m, hm, hc, hnone⟩
          rcases List.mem_cons.mp hm with rfl | hmrest
          · obtain ⟨v, hv⟩ := Option.isSome_iff_exists.mp h1
            have := hacc (m, v) (dictGet_mem hv)
            simp [this] at hnone
          · exact ⟨m, hmrest, hc, hnone⟩
        obtain ⟨m, hc, hnone, hloop⟩ :=
          filterLoop_missing_required members names rest acc hacc hrest
        exact ⟨m, hc, hnone, by simpa [filterLoop, h1] using hloop⟩
      · match hlook : dictGet members n with
        | none =>
            by_cases hcn : n ∈ names
            · exact ⟨n, hcn, hlook, by simp [filterLoop, h1, hlook, hcn]⟩
            · have hrest : ∃ m ∈ rest, m ∈ names ∧ dictGet members m = none := by
                rcases hmiss with ⟨m, hm, hc, hnone⟩
                rcases List.mem_cons.mp hm with rfl | hmrest
                · exact absurd hc hcn
                · exact ⟨m, hmrest, hc, hnone⟩
              obtain ⟨m, hc, hnone, hloop⟩ :=
                filterLoop_missing_required members names rest acc hacc hrest
              refine ⟨m, hc, hnone, ?_⟩
              simpa [filterLoop, h1, hlook, hcn] using hloop
        | some p =>
            have hrest : ∃ m ∈ rest, m ∈ names ∧ dictGet members m = none := by
              rcases hmiss with ⟨m, hm, hc, hnone⟩
              rcases List.mem_cons.mp hm with rfl | hmrest
              · simp [hlook] at hnone
              · exact ⟨m, hmrest, hc, hnone⟩
            by_cases hcn : n ∈ names
            · have hacc2 : ∀ q ∈ acc ++ [(n, p)], dictGet members q.1 = some q.2 := by
                intro q hq
                rcases List.mem_append.mp hq with h | h
                · exact hacc q h
                · simp at h
                  subst h
                  exact hlook
              obtain ⟨m, hc, hnone, hloop⟩ :=
                filterLoop_missing_required members names rest (acc ++ [(n, p)]) hacc2 hrest
              refine ⟨m, hc, hnone, ?_⟩
              simpa [filterLoop, h1, hlook, hcn] using hloop
            · obtain ⟨m, hc, hnone, hloop⟩ :=
                filterLoop_missing_required members names rest acc hacc hrest
              refine ⟨m, hc, hnone, ?_⟩
              simpa [filterLoop, h1, hlook, hcn] using hloop

theorem filterLoop_unrequired_char (members : List (String × Nat))
    (names : List String) :
    ∀ (todo : List String) (acc : List (String × Nat)),
      ∃ acc2, filterLoop members names false todo acc = .ok acc2 ∧
        ∀ n, dictGet acc2 n =
          if (dictGet acc n).isSome then dictGet acc n
          else if n ∈ todo ∧ n ∈ names then dictGet members n
          else none
  | [], acc => by
      refine ⟨acc, rfl, fun n => ?_⟩
      by_cases h : (dictGet acc n).isSome
      · simp [h]
      · simp [h, Option.not_isSome_iff_eq_none.mp h]
  | m :: rest, acc => by
      by_cases h1 : (dictGet acc m).isSome
      · obtain ⟨acc2, hloop, hchar⟩ :=
          filterLoop_unrequired_char members names rest acc
        refine ⟨acc2, by simpa [filterLoop, h1] using hloop, fun n => ?_⟩
        rw [hchar n]
        by_cases ha : (dictGet acc n).isSome
        · simp [ha]
        · have hnm : n ≠ m := fun h => by subst h; exact ha h1
          simp [ha, hnm]
      · match hlook : dictGet members m with
        | none =>
            obtain ⟨acc2, hloop, hchar⟩ :=
              filterLoop_unrequired_char members names rest acc
            refine ⟨acc2, by simpa [filterLoop, h1, hlook] using hloop, fun n => ?_⟩
            rw [hchar n]
            by_cases ha : (dictGet acc n).isSome
            · simp [ha]
            · by_cases hnm : n = m
              · subst hnm
                simp only [ha, if_false, Bool.false_eq_true]
                by_cases hc : n ∈ names <;> simp [hc, hlook]
              · simp [ha, hnm]
        | some p =>
            by_cases hcm : m ∈ names
            · obtain ⟨acc2, hloop, hchar⟩ :=
                filterLoop_unrequired_char members names rest (acc ++ [(m, p)])
              refine ⟨acc2, by simpa [filterLoop, h1, hlook, hcm] using hloop, fun n => ?_⟩
              rw [hchar n, dictGet_append]
              by_cases ha : (dictGet acc n).isSome
              · simp [ha]
              · by_cases hnm : n = m
                · subst hnm
                  simp [ha, Option.not_isSome_iff_eq_none.mp ha, dictGet, hcm, hlook]
                · simp [ha, Option.not_isSome_iff_eq_none.mp ha, dictGet, hnm, Ne.symm hnm]
            · obtain ⟨acc2, hloop, hchar⟩ :=
                filterLoop_unrequired_char members names rest acc
              refine ⟨acc2, by simpa [filterLoop, h1, hlook, hcm] using hloop, fun n => ?_⟩
              rw [hchar n]
              by_cases ha : (dictGet acc n).isSome
              · simp [ha]
              · by_cases hnm : n = m
                · subst hnm
                  simp [ha, hcm]
                · simp [ha, hnm]

/-- C8: filtering a tree by a non-empty list of names with `required=True`
raises the member-not-found error naming a requested name with no member,
whenever one exists; with `required=False` the same call succeeds, silently
dropping absent names: the result shares the tree's name and root, is marked
filtered, and its members mapping holds exactly the requested names that are
present (with their original projects). -/
theorem filter_members_required_spec (t : PyProjectTree) (ns : List String)
    (hne : ns ≠ []) :
    ((∃ n ∈ ns, dictGet t.members n = none) →
      ∃ m, m ∈ ns ∧ dictGet t.members m = none ∧
        filter_members t (some ns) true = .error (.memberNotFound m)) ∧
    (∃ t2, filter_members t (some ns) false = .ok t2 ∧
      t2.name = t.name ∧ t2.root = t.root ∧ t2.filtered = true ∧
      ∀ n, dictGet t2.members n =
        if n ∈ ns then dictGet t.members n else none) := by
  have hempty : ns.isEmpty = false := by
    cases ns with
    | nil => exact absurd rfl hne
    | cons a l => rfl
  constructor
  · rintro ⟨n, hn, hnone⟩
    obtain ⟨m, hm, hmnone, hloop⟩ :=
      filterLoop_missing_required t.members ns (ns ++ t.members.map Prod.fst) []
        (by intro p hp; cases hp)
        ⟨n, List.mem_append_left _ hn, hn, hnone⟩
    refine ⟨m, hm, hmnone, ?_⟩
    simp [filter_members, hempty, hloop]
  · obtain ⟨acc2, hloop, hchar⟩ :=
      filterLoop_unrequired_char t.members ns (ns ++ t.members.map Prod.fst) []
    refine ⟨⟨t.name, t.root, true, acc2⟩, ?_, rfl, rfl, rfl, ?_⟩
    · simp [filter_members, hempty, hloop]
    · intro n
      rw [hchar n]
      by_cases hn : n ∈ ns
      · simp [dictGet, hn, List.mem_append_left _ hn]
      · simp [dictGet, hn]

/-- Witness for C8 on the spec's own scenario: `names=["a","b"]` on a tree
with only member `"a"`; `required=True` raises naming `"b"`. -/
theorem filter_members_required_spec_witness :
    filter_members ⟨"w", 5, false, [("a", 0)]⟩ (some ["a", "b"]) true =
      .error (.memberNotFound "b") := by
  obtain ⟨h1, _⟩ :=
    filter_members_required_spec ⟨"w", 5, false, [("a", 0)]⟩ ["a", "b"] (by decide)
  obtain ⟨m, hm, hnone, hres⟩ := h1 ⟨"b", by simp, rfl⟩
  have hmb : m = "b" := by
    rcases List.mem_cons.mp hm with rfl | hm2
    · exact absurd hnone (by simp [dictGet])
    · simpa using hm2
  subst hmb
  exact hres

/-- A `pathlib` pure path: anchored or not, plus its parts.  `"."` segments
are dropped at parse time, `".."` segments are kept — `PurePath` operations
(`/`, `is_relative_to`, `parent`) are purely lexical. -/
structure PurePath where
  absolute : Bool
  parts : List String
deriving Repr, DecidableEq

/-- `a / b`: joining with an anchored right operand discards the left. -/
def joinPath (a b : PurePath) : PurePath :=
  if b.absolute then b else ⟨a.absolute, a.parts ++ b.parts⟩

/-- `p.is_relative_to(other)`: lexical — `other == p or other in p.parents`,
i.e. same anchor and `other`'s parts are a prefix of `p`'s, with `".."`
treated as an ordinary segment. -/
def is_relative_to (p other : PurePath) : Bool :=
  p.absolute == other.absolute && other.parts.isPrefixOf p.parts

/-- The segment normalization performed by `Path.resolve()`: `".."` pops the
previous segment (and is a no-op at the root). -/
def resolveParts (parts : List String) : List String :=
  parts.foldl (fun acc p => if p = ".." then acc.dropLast else acc ++ [p]) []

/-- The validation errors of `workspace_create.create` (spec taxonomy
`InvalidPathError` / `ProjectExistsError`; the source raises `ValueError`
with the offending path in the message in both cases). -/
inductive CreateError where
  | invalidPath
  | projectExists
deriving Repr, DecidableEq

/-- The filesystem writes `create` performs when validation passes. -/
structure CreateEffects where
  projectDir : PurePath
  manifestPath : PurePath
  packageDir : PurePath
deriving Repr, DecidableEq

/-- `workspace_create.create(name, path=...)` (no project dependencies, the
default): joins the destination onto the workspace root, checks lexical
containment via `is_relative_to`, checks no manifest exists, then creates
`project_dir`, writes the manifest, and creates the package layout.
`manifests` is the set of pyproject.toml files already on disk. -/
def create (rootDir : PurePath) (manifests : List PurePath) (name : String)
    (path : PurePath) : Except CreateError CreateEffects :=
  let path2 := joinPath rootDir path
  if !(is_relative_to path2 rootDir) then .error .invalidPath
  else
    let projectDir := joinPath path2 ⟨false, [name]⟩
    let manifestPath := joinPath projectDir ⟨false, ["pyproject.toml"]⟩
    if manifests.contains manifestPath then .error .projectExists
    else
      .ok { projectDir := projectDir, manifestPath := manifestPath,
            packageDir := joinPath projectDir ⟨false, ["src", name.replace "-" "_"]⟩ }

/-- C3: with workspace root `/ws`, calling `create("pkg", path="../outside")`
does not raise: the containment check `(root / path).is_relative_to(root)`
is lexical (the source never resolves the joined path), and `/ws/../outside`
does start with `/ws`, so the check passes — yet the directory actually
created, `/ws/../outside/pkg`, resolves to `/outside/pkg`, outside the
workspace root.  The claim that every destination resolving outside the root
(including `..` relative paths) raises with no filesystem writes is false on
the code. -/
theorem create_outside_root_no_error :
    (create ⟨true, ["ws"]⟩ [] "pkg" ⟨false, ["..", "outside"]⟩).isOk = true ∧
    (create ⟨true, ["ws"]⟩ [] "pkg" ⟨false, ["..", "outside"]⟩).toOption.map
        (fun e => resolveParts e.projectDir.parts) = some ["outside", "pkg"] ∧
    List.isPrefixOf ["ws"] ["outside", "pkg"] = false :=
  ⟨rfl, rfl, rfl⟩

/-- Directories existing on disk, as `_file_path` consults and creates them. -/
structure Fs where
  dirs : List PurePath
deriving Repr, DecidableEq

/-- `path.parent` (lexical). -/
def parentPath (p : PurePath) : PurePath :=
  ⟨p.absolute, p.parts.dropLast⟩

/-- The directory and all its ancestors, as `mkdir(parents=True)` ensures
them. -/
def ancestorDirs (p : PurePath) : List PurePath :=
  (List.range (p.parts.length + 1)).map fun i => ⟨p.absolute, p.parts.take i⟩

/-- `dir.mkdir(parents=True, exist_ok=True)`: create the missing ancestors. -/
def mkdirParents (fs : Fs) (d : PurePath) : Fs :=
  ⟨fs.dirs ++ (ancestorDirs d).filter (fun a => !fs.dirs.contains a)⟩

/-- Lines 287-290 of `pyproject.py`: the branch on `path.is_dir()` — append
the manifest file name to a directory, otherwise create the parents.  This is
the only filesystem effect of `PyProject.__init__`. -/
def _file_path_target (fs : Fs) (path : PurePath) : Fs × PurePath :=
  if fs.dirs.contains path then
    (fs, joinPath path ⟨false, ["pyproject.toml"]⟩)
  else
    (mkdirParents fs (parentPath path), path)

/-- Lines 291-294: `path.resolve().relative_to(cwd)` with the `ValueError`
fallback returning `path` itself. -/
def _file_path_ret (cwd p : PurePath) : PurePath :=
  let rp : List String := resolveParts ((joinPath cwd p).parts)
  if cwd.absolute && cwd.parts.isPrefixOf rp then
    ⟨false, rp.drop cwd.parts.length⟩
  else p

/-- `pyproject._file_path`, called from `PyProject.__init__`: the state of
the filesystem after construction and the path the instance will use. -/
def _file_path (fs : Fs) (cwd : PurePath) (path : PurePath) : Fs × PurePath :=
  let r := _file_path_target fs path
  (r.1, _file_path_ret cwd r.2)

theorem mkdirParents_contains (fs : Fs) (d : PurePath) {a : PurePath}
    (ha : a ∈ ancestorDirs d) : (mkdirParents fs d).dirs.contains a = true := by
  have hmem : a ∈ (mkdirParents fs d).dirs := by
    simp only [mkdirParents, List.mem_append]
    by_cases h : a ∈ fs.dirs
    · exact Or.inl h
    · refine Or.inr (List.mem_filter.mpr ⟨ha, ?_⟩)
      simpa [List.elem_iff] using h
  simpa [List.elem_iff] using hmem

/-- C9: constructing a `PyProject` at a path that is not an existing
directory creates the path's parent directory chain on disk right then (the
only effect of `__init__`; no load or persist is involved); at a path that is
an existing directory it appends the manifest file name `pyproject.toml` and
creates nothing. -/
theorem file_path_effects (fs : Fs) (cwd path : PurePath) :
    (fs.dirs.contains path = false →
      ∀ d ∈ ancestorDirs (parentPath path),
        ((_file_path fs cwd path).1.dirs.contains d) = true) ∧
    (fs.dirs.contains path = true →
      (_file_path fs cwd path).1 = fs ∧
      (_file_path_target fs path).2 = joinPath path ⟨false, ["pyproject.toml"]⟩) := by
  constructor
  · intro h d hd
    simp only [_file_path, _file_path_target, h, Bool.false_eq_true, if_false]
    exact mkdirParents_contains fs (parentPath path) hd
  · intro h
    have hmem : path ∈ fs.dirs := by simpa [List.elem_iff] using h
    simp [_file_path, _file_path_target, hmem]

/-- Witness for C9: a missing `/ws/a/b` gets `/ws/a` created at construction
while an existing directory `/ws` only gets the file name appended. -/
theorem file_path_effects_witness :
    ((_file_path ⟨[⟨true, ["ws"]⟩]⟩ ⟨true, ["cw"]⟩
        ⟨true, ["ws", "a", "b"]⟩).1.dirs.contains ⟨true, ["ws", "a"]⟩) = true ∧
    (_file_path ⟨[⟨true, ["ws"]⟩]⟩ ⟨true, ["cw"]⟩ ⟨true, ["ws"]⟩).1 = ⟨[⟨true, ["ws"]⟩]⟩ ∧
    (_file_path_target ⟨[⟨true, ["ws"]⟩]⟩ ⟨true, ["ws"]⟩).2 =
      ⟨true, ["ws", "pyproject.toml"]⟩ := by
  refine ⟨?_, ?_⟩
  · exact (file_path_effects ⟨[⟨true, ["ws"]⟩]⟩ ⟨true, ["cw"]⟩ ⟨true, ["ws", "a", "b"]⟩).1
      rfl ⟨true, ["ws", "a"]⟩ (by simp [ancestorDirs, parentPath]; decide)
  · have h := (file_path_effects ⟨[⟨true, ["ws"]⟩]⟩ ⟨true, ["cw"]⟩ ⟨true, ["ws"]⟩).2 rfl
    exact ⟨h.1, by rw [h.2]; rfl⟩

/-- The observable operations the `finally` block of `util.process_start`
can perform on the process. -/
inductive ProcAction where
  | kill
  | waitGrace
  | terminate
  | wait
  | joinThread
  | raiseCalledProcessError
deriving Repr, DecidableEq

/-- `util.process_start`'s `finally` block (util.py lines 158-171), which
runs on every exit of consumption — normal completion, early break
(generator close) or exception.  `running` is `proc.poll() is None`,
`killWaitTimesOut` tells whether `proc.wait(timeout=1)` after the `kill`
raised `TimeoutExpired`, `hasThread` whether a background stderr thread was
started, and `check`/`returncode` drive the final exit-code check. -/
def process_cleanup (running killWaitTimesOut hasThread check : Bool)
    (returncode : Int) : List ProcAction :=
  (if running then
    [.kill, .waitGrace] ++ (if killWaitTimesOut then [.terminate] else [])
  else []) ++
  [.wait] ++
  (if hasThread then [.joinThread] else []) ++
  (if check && returncode ≠ 0 then [.raiseCalledProcessError] else [])

/-- C4: the cleanup runs on every exit path and always performs the
unconditional `proc.wait()` — but the order of signals is the reverse of the
claim.  On a still-running process whose kill is reaped within the grace
period the trace is `[kill, waitGrace, wait]`: the forceful `proc.kill()`
comes first and no graceful `terminate` is ever sent; when the wait after
the kill times out, `terminate` is sent only after `kill`.  The claim that
the process "is first sent a graceful termination signal, then forcibly
killed only after a short grace period" is false on the code (the `wait`
part of the claim does hold: `.wait` is in every trace). -/
theorem process_cleanup_kill_first :
    process_cleanup true false false false 0 =
      [.kill, .waitGrace, .wait] ∧
    (ProcAction.terminate ∈ process_cleanup true false false false 0) = False ∧
    process_cleanup true true false false 0 =
      [.kill, .waitGrace, .terminate, .wait] ∧
    List.indexOf ProcAction.kill (process_cleanup true true false false 0) <
      List.indexOf ProcAction.terminate (process_cleanup true true false false 0) ∧
    (∀ running killWaitTimesOut hasThread check : Bool, ∀ returncode : Int,
      ProcAction.wait ∈
        process_cleanup running killWaitTimesOut hasThread check returncode) := by
  refine ⟨rfl, by simp [process_cleanup], rfl, by decide, ?_⟩
  intro running killWaitTimesOut hasThread check returncode
  cases running <;> cases killWaitTimesOut <;> cases hasThread <;>
    simp [process_cleanup]

/-- A parsed `MAJOR.MINOR.PATCH` version. -/
structure Version where
  major : Nat
  minor : Nat
  patch : Nat
deriving Repr, DecidableEq

/-- Advance to the next patch-level increment. -/
def bumpPatch (v : Version) : Version :=
  ⟨v.major, v.minor, v.patch + 1⟩

/-- Render `MAJOR.MINOR.PATCH`. -/
def versionString (v : Version) : String :=
  toString v.major ++ "." ++ toString v.minor ++ "." ++ toString v.patch

/-- Value at `doc[t][k]` when `doc[t]` is a table. -/
def getKey2 (doc : List (String × TomlValue)) (t k : String) : Option TomlValue :=
  match getKey doc t with
  | some (.table its) => getKey its k
  | _ => none

/-- Set `doc[t][k] = v`, creating table `t` (attached at `t`, replacing any
non-table value) when needed. -/
def setTableKey (doc : List (String × TomlValue)) (t k : String) (v : TomlValue) :
    List (String × TomlValue) :=
  match getKey doc t with
  | some (.table its) => setKey doc t (.table (setKey its k v))
  | some _ => setKey doc t (.table [(k, v)])
  | none => doc ++ [(t, .table [(k, v)])]

/-- Modelled from the spec: the per-member step of the Synchronizer
(§4.5).  The module `workspace_sync` is not present under `src/` (only its
callers and tests are), so this follows the spec's algorithm: copy the
root's `build-system.build-backend` into the member, overwriting any
member-level value, then write the member's version as the baseline advanced
to the next patch level, suffixed with the version-control descriptor
metadata when the repository is dirty-or-ahead (`vcsMeta`). -/
def sync_member (rootDoc memberDoc : List (String × TomlValue))
    (baseline : Version) (vcsMeta : Option String) : List (String × TomlValue) :=
  let d1 :=
    match getKey2 rootDoc "build-system" "build-backend" with
    | some b => setTableKey memberDoc "build-system" "build-backend" b
    | none => memberDoc
  let ver := versionString (bumpPatch baseline) ++
    (match vcsMeta with
     | some m => "+" ++ m
     | none => "")
  setTableKey d1 "project" "version" (.str ver)

theorem getKey_setKey_self (doc : List (String × TomlValue)) (k : String)
    (v : TomlValue) : getKey (setKey doc k v) k = some v := by
  induction doc with
  | nil => simp [setKey, getKey]
  | cons hd tl ih =>
    obtain ⟨k', w⟩ := hd
    by_cases hk : k' = k
    · subst hk
      simp [setKey, getKey]
    · simp [setKey, getKey, hk, ih]

theorem getKey_setKey_ne (doc : List (String × TomlValue)) (k k2 : String)
    (v : TomlValue) (h : k2 ≠ k) : getKey (setKey doc k v) k2 = getKey doc k2 := by
  induction doc with
  | nil => simp [setKey, getKey, Ne.symm h]
  | cons hd tl ih =>
    obtain ⟨k', w⟩ := hd
    by_cases hk : k' = k
    · subst hk
      simp [setKey, getKey, Ne.symm h]
    · simp [setKey, getKey, hk, ih]

theorem getKey_append (a b : List (String × TomlValue)) (k : String) :
    getKey (a ++ b) k = if (getKey a k).isSome then getKey a k else getKey b k := by
  induction a with
  | nil => simp [getKey]
  | cons hd tl ih =>
    obtain ⟨k', w⟩ := hd
    by_cases hk : k' = k
    · subst hk
      simp [getKey]
    · simpa [getKey, hk] using ih

theorem getKey2_setTableKey_self (doc : List (String × TomlValue)) (t k : String)
    (v : TomlValue) : getKey2 (setTableKey doc t k v) t k = some v := by
  match hdoc : getKey doc t with
  | some (.table its) =>
      simp [setTableKey, hdoc, getKey2, getKey_setKey_self]
  | some (.str s) => simp [setTableKey, hdoc, getKey2, getKey_setKey_self, getKey]
  | some (.int n) => simp [setTableKey, hdoc, getKey2, getKey_setKey_self, getKey]
  | some (.bool b2) => simp [setTableKey, hdoc, getKey2, getKey_setKey_self, getKey]
  | some (.array a) => simp [setTableKey, hdoc, getKey2, getKey_setKey_self, getKey]
  | none =>
      simp [setTableKey, hdoc, getKey2, getKey_append, getKey]

theorem getKey2_setTableKey_ne (doc : List (String × TomlValue)) (t k t2 k2 : String)
    (v : TomlValue) (h : t2 ≠ t) :
    getKey2 (setTableKey doc t k v) t2 k2 = getKey2 doc t2 k2 := by
  match hdoc : getKey doc t with
  | some (.table its) => simp [setTableKey, hdoc, getKey2, getKey_setKey_ne _ _ _ _ h]
  | some (.str s) => simp [setTableKey, hdoc, getKey2, getKey_setKey_ne _ _ _ _ h]
  | some (.int n) => simp [setTableKey, hdoc, getKey2, getKey_setKey_ne _ _ _ _ h]
  | some (.bool b2) => simp [setTableKey, hdoc, getKey2, getKey_setKey_ne _ _ _ _ h]
  | some (.array a) => simp [setTableKey, hdoc, getKey2, getKey_setKey_ne _ _ _ _ h]
  | none =>
      by_cases h2 : (getKey doc t2).isSome
      · simp [setTableKey, hdoc, getKey2, getKey_append, h2]
      · simp [setTableKey, hdoc, getKey2, getKey_append, h2,
          Option.not_isSome_iff_eq_none.mp h2, getKey, Ne.symm h]

/-- C6: when the workspace root declares
`build-system.build-backend = "hatchling.build"`, syncing a member manifest
that lacks a `build-system` table yields a manifest whose
`build-system.build-backend` is `"hatchling.build"` and whose
`project.version` is the baseline advanced by one patch level
(`MAJOR.MINOR.(PATCH+1)`), suffixed with `+` and the version-control
descriptor metadata when present. -/
theorem sync_member_spec (rootDoc memberDoc : List (String × TomlValue))
    (baseline : Version) (vcsMeta : Option String)
    (hroot : getKey2 rootDoc "build-system" "build-backend" =
      some (.str "hatchling.build"))
    ( _hmem : getKey memberDoc "build-system" = none) :
    getKey2 (sync_member rootDoc memberDoc baseline vcsMeta)
        "build-system" "build-backend" = some (.str "hatchling.build") ∧
    getKey2 (sync_member rootDoc memberDoc baseline vcsMeta)
        "project" "version" =
      some (.str (versionString ⟨baseline.major, baseline.minor, baseline.patch + 1⟩ ++
        (match vcsMeta with
         | some m => "+" ++ m
         | none => ""))) := by
  constructor
  · show getKey2 (sync_member rootDoc memberDoc baseline vcsMeta)
        "build-system" "build-backend" = some (.str "hatchling.build")
    simp only [sync_member, hroot]
    rw [getKey2_setTableKey_ne _ _ _ _ _ _ (by decide)]
    exact getKey2_setTableKey_self _ _ _ _
  · simp only [sync_member, hroot]
    exact getKey2_setTableKey_self _ _ _ _

/-- Witness for C6 on the scenario of `tests/test_sync.py`: root declaring
the hatchling backend, member `pkg1` at version `0.0.0` with no
`build-system` table, baseline `0.0.0`, repository ahead of its last tag. -/
theorem sync_member_spec_witness :
    getKey2 (sync_member
        [("build-system", .table [("requires", .array [.str "hatchling"]),
            ("build-backend", .str "hatchling.build")])]
        [("project", .table [("name", .str "pkg1"), ("version", .str "0.0.0")])]
        ⟨0, 0, 0⟩ (some "g1234abc"))
        "build-system" "build-backend" = some (.str "hatchling.build") ∧
    getKey2 (sync_member
        [("build-system", .table [("requires", .array [.str "hatchling"]),
            ("build-backend", .str "hatchling.build")])]
        [("project", .table [("name", .str "pkg1"), ("version", .str "0.0.0")])]
        ⟨0, 0, 0⟩ (some "g1234abc"))
        "project" "version" = some (.str "0.0.1+g1234abc") := by
  have h := sync_member_spec
    [("build-system", .table [("requires", .array [.str "hatchling"]),
        ("build-backend", .str "hatchling.build")])]
    [("project", .table [("name", .str "pkg1"), ("version", .str "0.0.0")])]
    ⟨0, 0, 0⟩ (some "g1234abc") rfl rfl
  exact ⟨h.1, h.2⟩
